import Mathlib

/-!
Shallow embedding of the integer math utilities in
`src/project/samples/hello_testing_frameworks/src/math_utils.cpp`.

Machine integers are modelled as mathematical integers reduced modulo the
word size: a C++ `int` value is an `Int` in `[-2^31, 2^31)` and every
arithmetic result is renormalised with `toInt32` (two's-complement
wraparound); a C++ `long long` result is renormalised with `toInt64`.
C++ `/` and `%` on `int` truncate toward zero, which is `Int.tdiv` and
`Int.tmod`.

The two `for` loops of the source (`IsPrime`, `Factorial`) are embedded as
fuel-indexed recursions.  The fuel `LOOP_FUEL = 2^31` is an upper bound on
the number of iterations either loop can perform before it exits, proved
sufficient where the development relies on it; `factLoop` returns `none`
when the fuel is exhausted, which happens exactly when the source loop
does not terminate (see `factLoop_intmax`).
-/

namespace MathUtils

/-- Two's-complement renormalisation: `wrapTo h x` is the unique value in
`[-h, h)` congruent to `x` modulo `2*h`. -/
def wrapTo (half x : Int) : Int := (x + half) % (2 * half) - half

/-- Wraparound of a C++ 32-bit signed `int`. -/
def toInt32 (x : Int) : Int := wrapTo 2147483648 x

/-- Wraparound of a C++ 64-bit signed `long long`. -/
def toInt64 (x : Int) : Int := wrapTo 9223372036854775808 x

/-- Error kind for the two validated preconditions; the source throws
`std::invalid_argument` with a message. -/
inductive MathError where
  | invalidArgument : String → MathError
deriving DecidableEq

/-- Source: `int Add(int a, int b) { return a + b; }`. -/
def Add (a b : Int) : Int := toInt32 (a + b)

/-- Source: `int Subtract(int a, int b) { return a - b; }`. -/
def Subtract (a b : Int) : Int := toInt32 (a - b)

/-- Source: `int Multiply(int a, int b) { return a * b; }`. -/
def Multiply (a b : Int) : Int := toInt32 (a * b)

/-- Source: `int Divide(int a, int b)`: throws on `b == 0`, otherwise
returns the truncating quotient `a / b` (as a 32-bit value). -/
def Divide (a b : Int) : Except MathError Int :=
  if b = 0 then .error (.invalidArgument "Division by zero is not allowed")
  else .ok (toInt32 (Int.tdiv a b))

/-- Iteration bound used to embed the source loops; both loops exit within
`2^31` iterations whenever they terminate at all. -/
def LOOP_FUEL : Nat := 2147483648

/-- Source loop of `IsPrime`: `for (int i = 3; i * i <= n; i += 2)` with
body `if (n % i == 0) return false;`, falling through to `return true`.
All `int` arithmetic (`i * i`, `i + 2`) wraps. -/
def isPrimeLoop (n : Int) : Nat → Int → Bool
  | 0, _ => true
  | fuel + 1, i =>
    if toInt32 (i * i) ≤ n then
      if Int.tmod n i = 0 then false
      else isPrimeLoop n fuel (toInt32 (i + 2))
    else true

/-- Source: `bool IsPrime(int n)`. -/
def IsPrime (n : Int) : Bool :=
  if n < 2 then false
  else if n = 2 then true
  else if Int.tmod n 2 = 0 then false
  else isPrimeLoop n LOOP_FUEL 3

/-- Source loop of `Factorial`: `for (int i = 2; i <= n; ++i) result *= i;`
with `long long result`.  The accumulator wraps at 64 bits, the counter at
32 bits.  `none` models exhaustion of the fuel, i.e. the loop still running
after `LOOP_FUEL` iterations. -/
def factLoop (n : Int) : Nat → Int → Int → Option Int
  | 0, _, _ => none
  | fuel + 1, result, i =>
    if i ≤ n then factLoop n fuel (toInt64 (result * i)) (toInt32 (i + 1))
    else some result

/-- Source: `long long Factorial(int n)`: throws on `n < 0`, returns `1`
for `n == 0 || n == 1`, otherwise runs the accumulation loop. -/
def Factorial (n : Int) : Option (Except MathError Int) :=
  if n < 0 then some (.error (.invalidArgument "Factorial is not defined for negative numbers"))
  else if n = 0 ∨ n = 1 then some (.ok 1)
  else (factLoop n LOOP_FUEL 1 2).map .ok

/-! Basic facts about the wraparound maps. -/

theorem wrapTo_lb (half x : Int) (h : 0 < half) : -half ≤ wrapTo half x := by
  have h1 : 0 ≤ (x + half) % (2 * half) := Int.emod_nonneg _ (by omega)
  unfold wrapTo
  omega

theorem wrapTo_ub (half x : Int) (h : 0 < half) : wrapTo half x < half := by
  have h1 : (x + half) % (2 * half) < 2 * half := Int.emod_lt_of_pos _ (by omega)
  unfold wrapTo
  omega

theorem wrapTo_eq_self (half x : Int) (h1 : -half ≤ x) (h2 : x < half) :
    wrapTo half x = x := by
  unfold wrapTo
  rw [Int.emod_eq_of_lt (by omega) (by omega)]
  omega

theorem wrapTo_modeq (half x : Int) : Int.ModEq (2 * half) (wrapTo half x) x := by
  unfold wrapTo Int.ModEq
  conv_rhs => rw [show x = x + half - half by ring]
  rw [Int.sub_emod ((x + half) % (2 * half)), Int.sub_emod (x + half),
    Int.emod_emod_of_dvd _ dvd_rfl]

theorem wrapTo_congr (half x y : Int) (h : Int.ModEq (2 * half) x y) :
    wrapTo half x = wrapTo half y := by
  unfold wrapTo
  rw [show (x + half) % (2 * half) = (y + half) % (2 * half) from h.add_right half]

theorem toInt32_lb (x : Int) : -2147483648 ≤ toInt32 x := wrapTo_lb _ x (by norm_num)

theorem toInt32_ub (x : Int) : toInt32 x < 2147483648 := wrapTo_ub _ x (by norm_num)

theorem toInt32_eq_self (x : Int) (h1 : -2147483648 ≤ x) (h2 : x < 2147483648) :
    toInt32 x = x := wrapTo_eq_self _ x h1 h2

theorem toInt32_modeq (x : Int) : Int.ModEq 4294967296 (toInt32 x) x := by
  have h := wrapTo_modeq 2147483648 x
  norm_num at h
  exact h

theorem toInt32_congr (x y : Int) (h : Int.ModEq 4294967296 x y) :
    toInt32 x = toInt32 y := by
  apply wrapTo_congr
  norm_num
  exact h

theorem toInt64_eq_self (x : Int) (h1 : -9223372036854775808 ≤ x)
    (h2 : x < 9223372036854775808) : toInt64 x = x := wrapTo_eq_self _ x h1 h2

theorem toInt64_modeq (x : Int) : Int.ModEq 18446744073709551616 (toInt64 x) x := by
  have h := wrapTo_modeq 9223372036854775808 x
  norm_num at h
  exact h

theorem toInt64_congr (x y : Int) (h : Int.ModEq 18446744073709551616 x y) :
    toInt64 x = toInt64 y := by
  apply wrapTo_congr
  norm_num
  exact h

/-- Truncating remainder negates with its dividend. -/
theorem neg_tmod (a b : Int) : Int.tmod (-a) b = -Int.tmod a b := by
  rw [Int.tmod_def, Int.tmod_def, Int.neg_tdiv]
  ring

/-- C7: `Add` is commutative: for every pair of 32-bit integers `a`, `b`,
`Add(a, b) == Add(b, a)`. -/
theorem add_comm_c7 (a b : Int) : Add a b = Add b a := by
  unfold Add
  rw [Int.add_comm]

/-- C8: `Subtract` is anti-commutative under wraparound semantics: for all
32-bit integers `a`, `b`, `Subtract(a, b)` equals the 32-bit (wrapped)
negation of `Subtract(b, a)`, including at the extremes of the range. -/
theorem subtract_anticomm_c8 (a b : Int) : Subtract a b = toInt32 (-(Subtract b a)) := by
  unfold Subtract
  apply toInt32_congr
  rw [show a - b = -(b - a) by ring]
  exact (Int.ModEq.neg (toInt32_modeq (b - a))).symm

/-- C6: subtracting `b` from the wrapped sum recovers `a`: for all 32-bit
integers `a`, `b`, `Subtract(Add(a, b), b) == a`, including when the
intermediate sum wraps around the 32-bit range. -/
theorem sub_add_cancel_c6 (a b : Int) (ha1 : -2147483648 ≤ a) (ha2 : a < 2147483648) :
    Subtract (Add a b) b = a := by
  unfold Subtract Add
  have h : Int.ModEq 4294967296 (toInt32 (a + b) - b) a := by
    have := (toInt32_modeq (a + b)).sub_right b
    simpa using this
  rw [toInt32_congr _ _ h, toInt32_eq_self a ha1 ha2]

/-- Witness for C6 at `a = -2147483640`, `b = 2000000000` (the sum wraps). -/
theorem sub_add_cancel_c6_witness :
    Subtract (Add (-2147483640) 2000000000) 2000000000 = -2147483640 :=
  sub_add_cancel_c6 (-2147483640) 2000000000 (by decide) (by decide)

/-- Truncating quotient of in-range operands stays in range, except for
`(-2^31) / (-1)` whose mathematical value `2^31` overflows. -/
theorem tdiv_range (a b : Int) (ha1 : -2147483648 ≤ a) (ha2 : a < 2147483648)
    (hb : b ≠ 0) (hex : ¬(a = -2147483648 ∧ b = -1)) :
    -2147483648 ≤ Int.tdiv a b ∧ Int.tdiv a b < 2147483648 := by
  by_cases hb1 : b = 1
  · subst hb1
    rw [Int.tdiv_one]
    omega
  by_cases hbm1 : b = -1
  · subst hbm1
    rw [show Int.tdiv a (-1) = -a by rw [show (-1 : Int) = -1 by rfl, Int.tdiv_neg, Int.tdiv_one]]
    omega
  have hb2 : 2 ≤ b.natAbs := by omega
  have h1 : (Int.tdiv a b).natAbs = a.natAbs / b.natAbs := Int.natAbs_tdiv a b
  have h2 : a.natAbs / b.natAbs ≤ a.natAbs / 2 := Nat.div_le_div_left hb2 (by norm_num)
  have h3 : a.natAbs / 2 ≤ 2147483648 / 2 := Nat.div_le_div_right (by omega)
  have h4 : (Int.tdiv a b).natAbs ≤ 1073741824 := by omega
  omega

/-- C3 counterexample: at `a = -2^31`, `b = -1` the code returns the wrapped
value `-2^31`, not the truncated quotient `2^31`. -/
theorem divide_intmin_c3_cex :
    Divide (-2147483648) (-1) = Except.ok (-2147483648)
    ∧ Int.tdiv (-2147483648) (-1) = 2147483648
    ∧ ((-2147483648 : Int) ≠ 2147483648) := by
  refine ⟨rfl, by decide, by decide⟩

/-- C3 (amended): for in-range `a`, `b` with `b ≠ 0` and excluding the
single overflowing pair `(-2^31, -1)`, `Divide(a, b)` returns the integer
quotient truncated toward zero, the quotient-remainder identity holds, and
the remainder `a - Divide(a,b)*b` is zero or has the sign of `a`. -/
theorem divide_tdiv_c3 (a b : Int) (ha1 : -2147483648 ≤ a) (ha2 : a < 2147483648)
    (_hb1 : -2147483648 ≤ b) (_hb2 : b < 2147483648) (hb : b ≠ 0)
    (hex : ¬(a = -2147483648 ∧ b = -1)) :
    Divide a b = Except.ok (Int.tdiv a b)
    ∧ Int.tdiv a b * b + (a - Int.tdiv a b * b) = a
    ∧ a - Int.tdiv a b * b = Int.tmod a b
    ∧ (0 ≤ a → 0 ≤ Int.tmod a b)
    ∧ (a ≤ 0 → Int.tmod a b ≤ 0) := by
  obtain ⟨hq1, hq2⟩ := tdiv_range a b ha1 ha2 hb hex
  refine ⟨?_, by ring, ?_, fun h => Int.tmod_nonneg b h, ?_⟩
  · unfold Divide
    rw [if_neg hb, toInt32_eq_self _ hq1 hq2]
  · rw [Int.tmod_def]
    ring
  · intro h
    have h2 : 0 ≤ Int.tmod (-a) b := Int.tmod_nonneg b (by omega)
    rw [neg_tmod] at h2
    omega

/-- Witness for C3 at `a = 7`, `b = 3`. -/
theorem divide_tdiv_c3_witness :
    Divide 7 3 = Except.ok (Int.tdiv 7 3)
    ∧ Int.tdiv 7 3 * 3 + ((7 : Int) - Int.tdiv 7 3 * 3) = 7
    ∧ (7 : Int) - Int.tdiv 7 3 * 3 = Int.tmod 7 3
    ∧ ((0 : Int) ≤ 7 → 0 ≤ Int.tmod 7 3)
    ∧ ((7 : Int) ≤ 0 → Int.tmod 7 3 ≤ 0) :=
  divide_tdiv_c3 7 3 (by decide) (by decide) (by decide) (by decide) (by decide) (by decide)

/-- Running the factorial loop from counter `i` with the wrapped partial
product `(i-1)!` yields the wrapped value of `n!`, provided the counter
never overflows (`n ≤ 2^31 - 2`) and the fuel exceeds the remaining
iteration count. -/
theorem factLoop_run : ∀ (m : Nat) (n i : Int), 2 ≤ i → i ≤ n + 1 → n ≤ 2147483646 →
    (n + 1 - i).toNat = m → ∀ fuel : Nat, m < fuel →
    factLoop n fuel (toInt64 ((Nat.factorial (i.toNat - 1) : Int))) i
      = some (toInt64 ((Nat.factorial n.toNat : Int))) := by
  intro m
  induction m with
  | zero =>
    intro n i h2 hle hn ht fuel hf
    have hi : i = n + 1 := by omega
    subst hi
    obtain ⟨f, rfl⟩ : ∃ f, fuel = f + 1 := ⟨fuel - 1, by omega⟩
    unfold factLoop
    rw [if_neg (by omega)]
    have he : (n + 1).toNat - 1 = n.toNat := by omega
    rw [he]
  | succ m ih =>
    intro n i h2 hle hn ht fuel hf
    obtain ⟨f, rfl⟩ : ∃ f, fuel = f + 1 := ⟨fuel - 1, by omega⟩
    have hin : i ≤ n := by omega
    unfold factLoop
    rw [if_pos hin]
    have hwrap : toInt32 (i + 1) = i + 1 := toInt32_eq_self _ (by omega) (by omega)
    have hacc : toInt64 (toInt64 ((Nat.factorial (i.toNat - 1) : Int)) * i)
        = toInt64 ((Nat.factorial ((i + 1).toNat - 1) : Int)) := by
      rw [toInt64_congr _ _ ((toInt64_modeq ((Nat.factorial (i.toNat - 1) : Int))).mul_right i)]
      congr 1
      have h0 : (i + 1).toNat - 1 = i.toNat := by omega
      rw [h0]
      have h1 : i.toNat = (i.toNat - 1) + 1 := by omega
      have hfac : Nat.factorial i.toNat = i.toNat * Nat.factorial (i.toNat - 1) := by
        conv_lhs => rw [h1]
        rw [Nat.factorial_succ, ← h1]
      rw [hfac]
      push_cast
      rw [Int.toNat_of_nonneg (by omega : (0 : Int) ≤ i)]
      ring
    rw [hwrap, hacc]
    exact ih n (i + 1) (by omega) (by omega) hn (by omega) f (by omega)

/-- With `n = 2^31 - 1` the loop guard `i <= n` can never fail (the wrapped
counter is always at most `2^31 - 1`), so the loop consumes any amount of
fuel: the source loop never terminates. -/
theorem factLoop_intmax : ∀ (fuel : Nat) (r i : Int), i ≤ 2147483647 →
    factLoop 2147483647 fuel r i = none := by
  intro fuel
  induction fuel with
  | zero => intro r i h; rfl
  | succ f ih =>
    intro r i h
    unfold factLoop
    rw [if_pos h]
    exact ih _ _ (by have := toInt32_ub (i + 1); omega)

/-- `Factorial(2^31 - 1)` never produces a value. -/
theorem factorial_intmax : Factorial 2147483647 = none := by
  unfold Factorial
  rw [if_neg (by omega), if_neg (by omega)]
  rw [factLoop_intmax LOOP_FUEL 1 2 (by norm_num)]
  rfl

/-- Factorial value lemma: on the terminating domain the code returns the
64-bit wrapped value of the mathematical factorial. -/
theorem factorial_eq (n : Int) (h0 : 0 ≤ n) (h1 : n ≤ 2147483646) :
    Factorial n = some (Except.ok (toInt64 ((Nat.factorial n.toNat : Int)))) := by
  by_cases hz : n = 0
  · subst hz
    rfl
  by_cases ho : n = 1
  · subst ho
    rfl
  have h2 : 2 ≤ n := by omega
  unfold Factorial
  rw [if_neg (by omega), if_neg (by push_neg; exact ⟨hz, ho⟩)]
  have hinit : (1 : Int) = toInt64 ((Nat.factorial ((2 : Int).toNat - 1) : Int)) := by decide
  rw [hinit, factLoop_run (n - 1).toNat n 2 (by norm_num) (by omega) h1 (by omega) LOOP_FUEL
    (by show (n - 1).toNat < 2147483648; omega)]
  rfl

/-- C2 (amended): the only raised condition is `InvalidArgument`, exactly at
a zero divisor or a negative factorial argument; every other input yields a
result, except `Factorial(2^31 - 1)`, which raises nothing but never
returns (its counter wraps and the loop never exits). -/
theorem error_contract_c2 :
    (∀ a b : Int, (∃ msg, Divide a b = Except.error (MathError.invalidArgument msg)) ↔ b = 0)
    ∧ (∀ n : Int,
        (∃ msg, Factorial n = some (Except.error (MathError.invalidArgument msg))) ↔ n < 0)
    ∧ (∀ a b : Int, b ≠ 0 → ∃ r, Divide a b = Except.ok r)
    ∧ (∀ n : Int, 0 ≤ n → n ≤ 2147483646 → ∃ r, Factorial n = some (Except.ok r))
    ∧ Factorial 2147483647 = none := by
  refine ⟨?_, ?_, ?_, ?_, factorial_intmax⟩
  · intro a b
    constructor
    · rintro ⟨msg, h⟩
      by_contra hb
      unfold Divide at h
      rw [if_neg hb] at h
      exact Except.noConfusion h
    · intro hb
      subst hb
      exact ⟨_, rfl⟩
  · intro n
    constructor
    · rintro ⟨msg, h⟩
      by_contra hn
      push_neg at hn
      unfold Factorial at h
      rw [if_neg (by omega)] at h
      by_cases h01 : n = 0 ∨ n = 1
      · rw [if_pos h01] at h
        injection h with h
        exact Except.noConfusion h
      · rw [if_neg h01] at h
        cases hcase : factLoop n LOOP_FUEL 1 2 with
        | none => rw [hcase] at h; exact Option.noConfusion h
        | some r =>
          rw [hcase] at h
          injection h with h
          exact Except.noConfusion h
    · intro hn
      unfold Factorial
      rw [if_pos hn]
      exact ⟨_, rfl⟩
  · intro a b hb
    unfold Divide
    rw [if_neg hb]
    exact ⟨_, rfl⟩
  · intro n h0 h1
    exact ⟨_, factorial_eq n h0 h1⟩

/-- C2 counterexample: `2^31 - 1` violates neither precondition, yet the
call produces no result at all. -/
theorem factorial_no_result_c2_cex :
    ¬ (2147483647 : Int) < 0 ∧ Factorial 2147483647 = none :=
  ⟨by decide, factorial_intmax⟩

/-- Witness for C2 at `Divide(7, 3)` and `Factorial(4)`. -/
theorem error_contract_c2_witness :
    (∃ r, Divide 7 3 = Except.ok r) ∧ (∃ r, Factorial 4 = some (Except.ok r)) :=
  ⟨error_contract_c2.2.2.1 7 3 (by decide),
   error_contract_c2.2.2.2.1 4 (by decide) (by decide)⟩

/-- C4 (amended): for `0 ≤ n ≤ 2^31 - 2` the code returns the mathematical
`n!` reduced into the signed 64-bit range (congruence modulo `2^64`); at
`n = 2^31 - 1` the loop never terminates and no value is produced. -/
theorem factorial_wrapped_c4 (n : Int) (h0 : 0 ≤ n) (h1 : n ≤ 2147483646) :
    Factorial n = some (Except.ok (toInt64 ((Nat.factorial n.toNat : Int)))) :=
  factorial_eq n h0 h1

/-- C4 counterexample: `n = 2^31 - 1` is nonnegative but gets no value. -/
theorem factorial_intmax_c4_cex :
    (0 : Int) ≤ 2147483647 ∧ Factorial 2147483647 = none :=
  ⟨by decide, factorial_intmax⟩

/-- Witness for C4 at `n = 5`: the wrapped factorial is exactly `120`. -/
theorem factorial_wrapped_c4_witness : Factorial 5 = some (Except.ok 120) := by
  rw [factorial_wrapped_c4 5 (by decide) (by decide),
    show toInt64 ((Nat.factorial ((5 : Int)).toNat : Int)) = 120 from by decide]

/-- C5: at `n = 2^31 - 1` the factorial loop runs forever — the guard
`i <= n` holds for every wrapped 32-bit counter value, so no amount of fuel
makes the loop exit. -/
theorem factLoop_diverges_c5 (fuel : Nat) (r i : Int) (h : i ≤ 2147483647) :
    factLoop 2147483647 fuel r i = none :=
  factLoop_intmax fuel r i h

/-- Witness for C5 at fuel `5`, the initial state `result = 1`, `i = 2`. -/
theorem factLoop_diverges_c5_witness :
    (2 : Int) ≤ 2147483647 ∧ factLoop 2147483647 5 1 2 = none :=
  ⟨by decide, factLoop_diverges_c5 5 1 2 (by decide)⟩

/-- C9: for `0 ≤ n ≤ 20` the returned value is exactly the mathematical
`n!` (no wraparound, since `20! < 2^63`), and `21` is the smallest argument
whose result deviates from the mathematical factorial. -/
theorem factorial_exact_c9 :
    (∀ n : Int, 0 ≤ n → n ≤ 20 →
      Factorial n = some (Except.ok ((Nat.factorial n.toNat : Int))))
    ∧ Factorial 21 ≠ some (Except.ok ((Nat.factorial 21 : Int))) := by
  constructor
  · intro n h0 h1
    have h20 : Nat.factorial 20 = 2432902008176640000 := by decide
    have hle : Nat.factorial n.toNat ≤ 2432902008176640000 := by
      have := Nat.factorial_le (show n.toNat ≤ 20 by omega)
      omega
    rw [factorial_eq n h0 (by omega), toInt64_eq_self _ (by omega) (by omega)]
  · intro h
    rw [factorial_eq 21 (by decide) (by decide)] at h
    injection h with h
    injection h with h
    exact absurd h (by decide)

/-- Witness for C9 at `n = 4` (the spec scenario `Factorial(4) = 24`). -/
theorem factorial_exact_c9_witness :
    Factorial 4 = some (Except.ok ((Nat.factorial ((4 : Int)).toNat : Int))) :=
  factorial_exact_c9.1 4 (by decide) (by decide)

/-- C10 (amended): for `66 ≤ n ≤ 2^31 - 2` the wrapped factorial is exactly
zero (the 2-adic valuation of `n!` reaches 64 at `n = 66`); the stated
range endpoint `n = 2^31 - 1` instead produces no value at all. -/
theorem factorial_zero_c10 (n : Int) (h0 : 66 ≤ n) (h1 : n ≤ 2147483646) :
    Factorial n = some (Except.ok 0) := by
  rw [factorial_eq n (by omega) h1]
  have hdvd : (18446744073709551616 : Nat) ∣ Nat.factorial n.toNat := by
    have h66 : (18446744073709551616 : Nat) ∣ Nat.factorial 66 := by decide
    exact h66.trans (Nat.factorial_dvd_factorial (by omega))
  obtain ⟨k, hk⟩ := hdvd
  have hcast : ((Nat.factorial n.toNat : Int)) = 18446744073709551616 * k := by
    exact_mod_cast hk
  have hz : toInt64 ((Nat.factorial n.toNat : Int)) = 0 := by
    unfold toInt64 wrapTo
    rw [hcast, show (2 : Int) * 9223372036854775808 = 18446744073709551616 by norm_num,
      add_comm ((18446744073709551616 : Int) * k) 9223372036854775808,
      Int.add_mul_emod_self_left]
    norm_num
  rw [hz]

/-- C10 counterexample: at `n = 2^31 - 1` (which the claim covers) the code
returns no value, not `0`. -/
theorem factorial_intmax_c10_cex :
    (66 : Int) ≤ 2147483647 ∧ Factorial 2147483647 ≠ some (Except.ok 0) := by
  refine ⟨by decide, ?_⟩
  rw [factorial_intmax]
  exact fun h => Option.noConfusion h

/-- Witness for C10 at `n = 66`, the smallest zero. -/
theorem factorial_zero_c10_witness : Factorial 66 = some (Except.ok 0) :=
  factorial_zero_c10 66 (by decide) (by decide)

/-- Primality of the Mersenne number `2^31 - 1` (Euler, 1772), via the
Lucas-Lehmer test. -/
theorem prime_two_pow_31_sub_one : Nat.Prime 2147483647 := by
  have h : mersenne 31 = 2147483647 := by norm_num [mersenne]
  have hp : (mersenne 31).Prime := lucas_lehmer_sufficiency _ (by norm_num) (by norm_num)
  rwa [h] at hp

/-- With `n = 2^31 - 1` every wrapped value of `i * i` is at most `n`, so
the guard of the trial-division loop never fails: starting from any odd
candidate `i = n - 2k`, the loop keeps going until `i = n` itself, where
`n % i == 0` fires and the loop (wrongly) answers `false`. -/
theorem isPrimeLoop_intmax_aux : ∀ (k : Nat) (i : Int), 3 ≤ i → i ≤ 2147483647 →
    i + 2 * k = 2147483647 → ∀ fuel : Nat, k < fuel →
    isPrimeLoop 2147483647 fuel i = false := by
  intro k
  induction k with
  | zero =>
    intro i _ _ heq fuel hf
    have hi : i = 2147483647 := by omega
    subst hi
    obtain ⟨f, rfl⟩ : ∃ f, fuel = f + 1 := ⟨fuel - 1, by omega⟩
    unfold isPrimeLoop
    rw [if_pos (by have := toInt32_ub ((2147483647 : Int) * 2147483647); omega),
      if_pos (Int.tmod_eq_zero_of_dvd dvd_rfl)]
  | succ k ih =>
    intro i h3 hN heq fuel hf
    obtain ⟨f, rfl⟩ : ∃ f, fuel = f + 1 := ⟨fuel - 1, by omega⟩
    have hi_lt : i < 2147483647 := by omega
    unfold isPrimeLoop
    rw [if_pos (by have := toInt32_ub (i * i); omega)]
    have hnd : Int.tmod 2147483647 i ≠ 0 := by
      intro h0
      have hdvd : i ∣ 2147483647 := Int.dvd_of_tmod_eq_zero h0
      have hdvdnat : i.toNat ∣ 2147483647 := by
        have hcast : ((i.toNat : Nat) : Int) ∣ (2147483647 : Int) := by
          rw [Int.toNat_of_nonneg (by omega : (0 : Int) ≤ i)]
          exact hdvd
        exact_mod_cast hcast
      rcases Nat.Prime.eq_one_or_self_of_dvd prime_two_pow_31_sub_one _ hdvdnat with h1 | h1
      · omega
      · omega
    rw [if_neg hnd, toInt32_eq_self (i + 2) (by omega) (by omega)]
    exact ih (i + 2) (by omega) (by omega) (by omega) f (by omega)

/-- C1: `IsPrime` does not follow the spec policy on all 32-bit inputs —
at `n = 2^31 - 1`, a prime, the wrapped guard `i * i <= n` never fails, the
loop overruns √n all the way to `i = n`, and the code returns `false`. -/
theorem isPrime_intmax_c1 : IsPrime 2147483647 = false ∧ Nat.Prime 2147483647 := by
  refine ⟨?_, prime_two_pow_31_sub_one⟩
  unfold IsPrime
  rw [if_neg (by omega), if_neg (by omega), if_neg (by decide)]
  exact isPrimeLoop_intmax_aux 1073741822 3 (by norm_num) (by norm_num) (by norm_num)
    LOOP_FUEL (by show (1073741822 : Nat) < LOOP_FUEL; unfold LOOP_FUEL; norm_num)

/-- Fidelity of the fuel encoding for the `IsPrime` loop: along the odd
wrapped counter sequence the distance to the exit state `i = -1` (where
`n % i == 0` necessarily fires, or the guard fails) bounds the number of
iterations, so any two sufficient fuels give the same answer. -/
theorem isPrimeLoop_fuel_aux : ∀ (d : Nat) (n i : Int), i % 2 = 1 →
    -2147483648 ≤ i → i < 2147483648 → ((-1 - i) % 4294967296).toNat = 2 * d →
    ∀ f1 f2 : Nat, d < f1 → d < f2 →
    isPrimeLoop n f1 i = isPrimeLoop n f2 i := by
  intro d
  induction d with
  | zero =>
    intro n i hodd hlb hub hd f1 f2 hf1 hf2
    have hge : 0 ≤ (-1 - i) % 4294967296 := Int.emod_nonneg _ (by norm_num)
    have hmod : (-1 - i) % 4294967296 = 0 := by omega
    obtain ⟨k, hk⟩ := Int.dvd_of_emod_eq_zero hmod
    have hi : i = -1 := by omega
    subst hi
    obtain ⟨a, rfl⟩ : ∃ a, f1 = a + 1 := ⟨f1 - 1, by omega⟩
    obtain ⟨b, rfl⟩ : ∃ b, f2 = b + 1 := ⟨f2 - 1, by omega⟩
    unfold isPrimeLoop
    rw [show toInt32 ((-1 : Int) * (-1)) = 1 from by decide]
    by_cases hc : (1 : Int) ≤ n
    · rw [if_pos hc, if_pos hc,
        show Int.tmod n (-1) = 0 by rw [Int.tmod_neg, Int.tmod_one], if_pos rfl, if_pos rfl]
    · rw [if_neg hc, if_neg hc]
  | succ d ih =>
    intro n i hodd hlb hub hd f1 f2 hf1 hf2
    obtain ⟨a, rfl⟩ : ∃ a, f1 = a + 1 := ⟨f1 - 1, by omega⟩
    obtain ⟨b, rfl⟩ : ∃ b, f2 = b + 1 := ⟨f2 - 1, by omega⟩
    unfold isPrimeLoop
    by_cases hc : toInt32 (i * i) ≤ n
    · rw [if_pos hc, if_pos hc]
      by_cases hm : Int.tmod n i = 0
      · rw [if_pos hm, if_pos hm]
      · rw [if_neg hm, if_neg hm]
        have hmeq : toInt32 (i + 2) % 4294967296 = (i + 2) % 4294967296 :=
          toInt32_modeq (i + 2)
        have hodd2 : toInt32 (i + 2) % 2 = 1 := by
          have h2 : toInt32 (i + 2) % 2 = (i + 2) % 2 :=
            Int.ModEq.of_dvd (by norm_num) (toInt32_modeq (i + 2))
          rw [h2, show i + 2 = i + 2 * 1 by ring, Int.add_mul_emod_self_left, hodd]
        have hge : 0 ≤ (-1 - i) % 4294967296 := Int.emod_nonneg _ (by norm_num)
        have hlt : (-1 - i) % 4294967296 < 4294967296 := Int.emod_lt_of_pos _ (by norm_num)
        have hx : (-1 - i) % 4294967296 = 2 * ((d : Int) + 1) := by omega
        have hdist : ((-1 - toInt32 (i + 2)) % 4294967296).toNat = 2 * d := by
          have h1 : (-1 - toInt32 (i + 2)) % 4294967296 = (-1 - (i + 2)) % 4294967296 :=
            Int.ModEq.sub (Int.ModEq.refl (-1)) (toInt32_modeq (i + 2))
          have h2 : (-1 - (i + 2)) % 4294967296 = 2 * (d : Int) := by
            rw [show (-1 : Int) - (i + 2) = (-1 - i) - 2 by ring, Int.sub_emod, hx,
              show (2 : Int) % 4294967296 = 2 from by decide,
              Int.emod_eq_of_lt (by omega) (by omega)]
            ring
          rw [h1, h2]
          omega
        exact ih n (toInt32 (i + 2)) hodd2 (toInt32_lb _) (toInt32_ub _) hdist a b
          (by omega) (by omega)
    · rw [if_neg hc, if_neg hc]

/-- The fuel `LOOP_FUEL` is sufficient for the `IsPrime` loop on every
input: giving the loop any more fuel never changes the answer, so the
embedding computes exactly the value of the source loop. -/
theorem isPrimeLoop_fuel_stable (n : Int) (f : Nat) (hf : LOOP_FUEL ≤ f) :
    isPrimeLoop n f 3 = isPrimeLoop n LOOP_FUEL 3 :=
  isPrimeLoop_fuel_aux 2147483646 n 3 (by decide) (by decide) (by decide) (by decide)
    f LOOP_FUEL (by unfold LOOP_FUEL at hf; omega) (by unfold LOOP_FUEL; norm_num)

/-- Spec scenarios evaluated on the embedding: `Add(2,3)=5`, `Divide(7,3)=2`,
`IsPrime(13)=true`, `IsPrime(9)=false`, `IsPrime(2)=true`, `IsPrime(1)=false`,
`IsPrime(-7)=false`, `IsPrime(10)=false`. -/
theorem spec_scenarios :
    Add 2 3 = 5 ∧ Divide 7 3 = Except.ok 2 ∧ IsPrime 13 = true ∧ IsPrime 9 = false
    ∧ IsPrime 2 = true ∧ IsPrime 1 = false ∧ IsPrime (-7) = false
    ∧ IsPrime 10 = false := by
  refine ⟨rfl, rfl, ?_, ?_, rfl, rfl, rfl, rfl⟩ <;> decide

end MathUtils
